import Mathlib

/-!
Verification development for the robusto code-generation core:
the BPIR data model (`src/bpir/representation.rs`), the validation
engine (`src/bpir/validation.rs`), the common Ragel AST builder
(`src/parser_generation/ragel/common.rs`) and the generic tree-based
code generation engine with its C backend
(`src/utility/codegen.rs`, `src/parser_generation/ragel/c.rs`).

Rust `usize` values are modelled as `Nat`, `isize` as `Int`,
`LinkedList`/`Vec` as `List`, and a fatal (process-terminating) failure
as `Option.none` in the function's result.  Mutable state threading
(`&mut CodeGenerationState`) is modelled by explicit state passing.
-/

namespace Robusto

/-! ## BPIR representation (`src/bpir/representation.rs`) -/

/-- Mirrors `MaxLengthFieldAttribute`. -/
structure MaxLengthFieldAttribute where
  value : Nat
deriving DecidableEq, Repr

/-- Mirrors `MaxLengthFieldAttribute::get_default_value`, a fixed constant. -/
def MaxLengthFieldAttribute.get_default_value : Nat := 64

/-- Mirrors the `FieldAttribute` enum (single variant `MaxLength`). -/
inductive FieldAttribute where
  | maxLength (attr : MaxLengthFieldAttribute)
deriving DecidableEq, Repr

/-- Mirrors `RegexFieldType`. -/
structure RegexFieldType where
  regex : String
deriving DecidableEq, Repr

/-- Mirrors the `FieldType` enum (single variant `Regex`). -/
inductive FieldType where
  | regex (t : RegexFieldType)
deriving DecidableEq, Repr

/-- Mirrors the `MessageAttribute` enum (single variant `Root`). -/
inductive MessageAttribute where
  | root
deriving DecidableEq, Repr

/-- Mirrors the (empty) `ProtocolAttribute` enum. -/
inductive ProtocolAttribute : Type
deriving DecidableEq

/-- Mirrors `Field`. -/
structure Field where
  name : String
  field_type : FieldType
  attributes : List FieldAttribute
deriving DecidableEq, Repr

/-- Mirrors `Message`. -/
structure Message where
  name : String
  fields : List Field
  attributes : List MessageAttribute
deriving DecidableEq, Repr

/-- Mirrors `Protocol`. -/
structure Protocol where
  messages : List Message
  attributes : List ProtocolAttribute
deriving DecidableEq

/-- The inner attribute scan of `Protocol::root_message`: whether a message
carries the `Root` attribute. -/
def Message.has_root_attribute (m : Message) : Bool :=
  m.attributes.any fun a => match a with | .root => true

/-- Mirrors `Protocol::root_message`.  The source panics on an empty message
list (modelled as `none`); otherwise it returns the first message carrying
`Root`, and failing that the first message. -/
def Protocol.root_message (p : Protocol) : Option Message :=
  if p.messages.length = 0 then
    -- log::error!("Empty messages list. Panicking"); panic
    none
  else
    match p.messages.find? Message.has_root_attribute with
    | some m => some m
    | none => p.messages[0]?

/-! ## Validation engine (`src/bpir/validation.rs`) -/

/-- Mirrors `MessageFieldLintResult`. -/
inductive MessageFieldLintResult where
  | ok
  | warning (text : String)
  | error (text : String)
deriving DecidableEq, Repr

/-- Mirrors `ProtocolLintResult`. -/
structure ProtocolLintResult where
  message_lint_results : List MessageFieldLintResult
deriving DecidableEq, Repr

/-- Mirrors `MockLinter::lint_field`: always `Ok`. -/
def MockLinter.lint_field (_message : Message) (_field : Field) : MessageFieldLintResult :=
  .ok

/-- The attribute scan inside `RegexFieldMaxLengthLinter::lint_field`:
whether any attribute of the field is a `MaxLength`. -/
def Field.has_max_length_attribute (f : Field) : Bool :=
  f.attributes.any fun a => match a with | .maxLength _ => true

/-- The warning text produced by `RegexFieldMaxLengthLinter::lint_field`
(the `format!` call of `validation.rs`). -/
def max_length_warning_text (message_name field_name : String) : String :=
  "in message " ++ message_name ++ " field " ++ field_name ++
    " does not have MaxLength attribute"

/-- Mirrors `RegexFieldMaxLengthLinter::lint_field`: for a `Regex`-typed field
the attributes are scanned and the first `MaxLength` found returns `Ok`;
every remaining path falls through to the `Warning`. -/
def RegexFieldMaxLengthLinter.lint_field (message : Message) (field : Field) :
    MessageFieldLintResult :=
  match field.field_type with
  | .regex _ =>
    if field.has_max_length_attribute then
      .ok
    else
      .warning (max_length_warning_text message.name field.name)

/-- The linter list built by `CompositeMessageLinter::new`: a `MockLinter`
followed by a `RegexFieldMaxLengthLinter`. -/
def CompositeMessageLinter.pending_linters :
    List (Message → Field → MessageFieldLintResult) :=
  [MockLinter.lint_field, RegexFieldMaxLengthLinter.lint_field]

/-- Mirrors `CompositeMessageLinter::lint_field`: pushes each pending
linter's result onto the protocol-level report. -/
def CompositeMessageLinter.lint_field (message : Message) (field : Field)
    (protocol_lint_result : ProtocolLintResult) : ProtocolLintResult :=
  CompositeMessageLinter.pending_linters.foldl
    (fun acc linter =>
      { message_lint_results := acc.message_lint_results ++ [linter message field] })
    protocol_lint_result

/-- Mirrors `CompositeMessageLinter::lint_message`: lints each field of the
message in declaration order. -/
def CompositeMessageLinter.lint_message (message : Message)
    (protocol_lint_result : ProtocolLintResult) : ProtocolLintResult :=
  message.fields.foldl
    (fun acc field => CompositeMessageLinter.lint_field message field acc)
    protocol_lint_result

/-- Mirrors `validate_protocol`: runs the composite linter over every message
of the protocol, in declaration order, starting from an empty report. -/
def validate_protocol (protocol : Protocol) : ProtocolLintResult :=
  protocol.messages.foldl
    (fun acc message => CompositeMessageLinter.lint_message message acc)
    ⟨[]⟩

/-! ## Common Ragel AST (`src/parser_generation/ragel/common.rs`) -/

/-- Mirrors `FieldBaseType` of `common.rs` (re-exported by `c.rs`). -/
inductive FieldBaseType where
  | i8
deriving DecidableEq, Repr

/-- Mirrors `ParsingFunctionAstNode`. -/
structure ParsingFunctionAstNode where
  message_name : String
deriving DecidableEq, Repr

/-- Mirrors `RegexMachineFieldAstNode`. -/
structure RegexMachineFieldAstNode where
  string_sequence : String
  name : String
deriving DecidableEq, Repr

/-- Mirrors `MachineHeaderAstNode`. -/
structure MachineHeaderAstNode where
  machine_name : String
deriving DecidableEq, Repr

/-- Mirrors `MachineDefinitionAstNode`. -/
structure MachineDefinitionAstNode where
  machine_name : String
  fields : List String
deriving DecidableEq, Repr

/-- Mirrors `MessageStructAstNode`. -/
structure MessageStructAstNode where
  message_name : String
deriving DecidableEq, Repr

/-- Mirrors `MessageStructMemberAstNode`. -/
structure MessageStructMemberAstNode where
  name : String
  field_base_type : FieldBaseType
  /-- If 0, it is considered just a field -/
  array_length : Nat
deriving DecidableEq, Repr

/-- Mirrors `MachineActionHookAstNode`. -/
structure MachineActionHookAstNode where
  name : String
deriving DecidableEq, Repr

/-- Mirrors the `Ast` enum of `common.rs`. -/
inductive Ast where
  | none
  | messageStructMember (node : MessageStructMemberAstNode)
  | machineHeader (node : MachineHeaderAstNode)
  | machineActionHook (node : MachineActionHookAstNode)
  | messageStruct (node : MessageStructAstNode)
  | machineDefinition (node : MachineDefinitionAstNode)
  | parsingFunction (node : ParsingFunctionAstNode)
  | regexMachineField (node : RegexMachineFieldAstNode)
deriving DecidableEq, Repr

/-- Mirrors the `AstNode` struct of `common.rs`: a node type plus an ordered
list of owned children. -/
inductive AstNode where
  | mk (ast_node_type : Ast) (children : List AstNode)

def AstNode.ast_node_type : AstNode → Ast
  | .mk t _ => t

def AstNode.children : AstNode → List AstNode
  | .mk _ cs => cs

/-- The attribute scan of `AstNode::add_message_parser` (the
`for attribute in &field.attributes` loop inside the `array_length` block):
every `MaxLength` occurrence overwrites `value`, so the last one is kept;
`value` starts at 0. -/
def scanned_max_length (field : Field) : Nat :=
  match field.field_type with
  | .regex _ =>
    field.attributes.foldl
      (fun _value attr => match attr with | .maxLength max_length => max_length.value)
      0

/-- The tail of the `array_length` block of `AstNode::add_message_parser`:
if the scanned value is 0 the default is substituted and a non-fatal
`log::warn!` diagnostic is emitted.  Returns (array length, warning emitted). -/
def resolved_array_length_and_warning (field : Field) : Nat × Bool :=
  let value := scanned_max_length field
  if value = 0 then (MaxLengthFieldAttribute.get_default_value, true) else (value, false)

/-- The array length the builder stores in the `MessageStructMember` node. -/
def resolved_array_length (field : Field) : Nat :=
  (resolved_array_length_and_warning field).1

/-- Whether the builder emits the missing-`MaxLength` diagnostic for a field. -/
def max_length_warning_emitted (field : Field) : Bool :=
  (resolved_array_length_and_warning field).2

/-- The `MessageStructMember` payload built by `AstNode::add_message_parser`
for one field. -/
def AstNode.message_struct_member_of (field : Field) : MessageStructMemberAstNode :=
  { name := field.name
    field_base_type := match field.field_type with | .regex _ => .i8
    array_length := resolved_array_length field }

/-- Mirrors `AstNode::add_machine_action_hook`. -/
def AstNode.machine_action_hook_of (field : Field) : MachineActionHookAstNode :=
  { name := field.name }

/-- Mirrors `AstNode::add_machine_field_parser` composed with
`AstNode::add_regex_machine_field_parser` (dispatch on the field's type). -/
def AstNode.regex_machine_field_of (field : Field) : RegexMachineFieldAstNode :=
  match field.field_type with
  | .regex regex => { string_sequence := regex.regex, name := field.name }

/-- The four subtrees `AstNode::add_message_parser` pushes for one message:
a `MachineHeader`, a `MessageStruct` (whose children are pushed one per
field), a `MachineDefinition` (whose children are all the action hooks of the
two field loops followed by all the field parsers) and a `ParsingFunction`. -/
def AstNode.message_subtrees (message : Message) : List AstNode :=
  let machine_header := AstNode.mk (.machineHeader { machine_name := message.name }) []
  let message_struct := AstNode.mk (.messageStruct { message_name := message.name })
    (message.fields.foldl
      (fun cs field =>
        cs ++ [AstNode.mk (.messageStructMember (AstNode.message_struct_member_of field)) []])
      [])
  let machine_definition := AstNode.mk
    (.machineDefinition
      { machine_name := message.name
        fields := message.fields.map fun f => f.name })
    ((message.fields.foldl
        (fun cs field =>
          cs ++ [AstNode.mk (.machineActionHook (AstNode.machine_action_hook_of field)) []])
        []) ++
     (message.fields.foldl
        (fun cs field =>
          cs ++ [AstNode.mk (.regexMachineField (AstNode.regex_machine_field_of field)) []])
        []))
  let parsing_function := AstNode.mk (.parsingFunction { message_name := message.name }) []
  [machine_header, message_struct, machine_definition, parsing_function]

/-- Mirrors `AstNode::add_message_parser`: appends the four per-message
subtrees, in order, to the node's children. -/
def AstNode.add_message_parser (node : AstNode) (message : Message) : AstNode :=
  AstNode.mk node.ast_node_type (node.children ++ AstNode.message_subtrees message)

/-- Mirrors `AstNode::from_protocol`: starts from an `Ast::None` root and adds
one message parser per message, in declaration order. -/
def AstNode.from_protocol (protocol : Protocol) : AstNode :=
  protocol.messages.foldl AstNode.add_message_parser (AstNode.mk .none [])

/-! ## Generic code generation engine (`src/utility/codegen.rs`) -/

/-- Mirrors `CodeChunk`: one emittable unit of text with an indent level and a
trailing newline count. -/
structure CodeChunk where
  code : String
  indent : Nat
  newlines : Nat
deriving DecidableEq, Repr

/-- Mirrors `CodeGenerationState`: the single mutable indent counter. -/
structure CodeGenerationState where
  indent : Nat
deriving DecidableEq, Repr

/-- Mirrors `CodeGenerationState::increment_indent`: a negative increment
larger than the current indent clamps to 0 (with a `log::warn!`); otherwise
the signed sum is stored. -/
def CodeGenerationState.increment_indent (s : CodeGenerationState) (increment : Int) :
    CodeGenerationState :=
  if increment < 0 ∧ (s.indent : Int) < -increment then
    ⟨0⟩
  else
    ⟨((s.indent : Int) + increment).toNat⟩

/-- A pre/post-traversal hook pair: takes the shared state, returns the
emitted chunks and the updated state (models `&mut CodeGenerationState`). -/
abbrev GenerationHook := CodeGenerationState → List CodeChunk × CodeGenerationState

/-- Mirrors `RawCode`: pre-rendered pre/post chunk lists plus the recorded net
indent diff to replay. -/
structure RawCode where
  code_chunk_pre_traverse : List CodeChunk
  code_chunk_post_traverse : List CodeChunk
  indent_increment : Int
deriving DecidableEq, Repr

/-- Mirrors `impl From<&str> for RawCode`. -/
def RawCode.from_str (value : String) : RawCode :=
  { code_chunk_pre_traverse := [{ code := value, indent := 0, newlines := 1 }]
    code_chunk_post_traverse := []
    indent_increment := 0 }

/-- Mirrors `impl<T: TreeBasedCodeGeneration> From<&T> for RawCode`: runs the
node's own hooks once from a fresh state (indent 0) and records the chunk
lists and the net indent change between the two hooks. -/
def RawCode.from_hooks (pre post : GenerationHook) : RawCode :=
  let s0 : CodeGenerationState := ⟨0⟩
  let pre_result := pre s0
  let traverse_indent := pre_result.2.indent
  let post_result := post pre_result.2
  { code_chunk_pre_traverse := pre_result.1
    code_chunk_post_traverse := post_result.1
    indent_increment := (traverse_indent : Int) - (post_result.2.indent : Int) }

/-- Mirrors `TreeBasedCodeGeneration for RawCode`, `generate_code_pre_traverse`:
replays the recorded pre-traversal chunks shifted by the ambient indent, then
applies the recorded indent increment to the shared state. -/
def RawCode.generate_code_pre_traverse (rc : RawCode) (s : CodeGenerationState) :
    List CodeChunk × CodeGenerationState :=
  (rc.code_chunk_pre_traverse.map fun chunk => { chunk with indent := chunk.indent + s.indent },
   s.increment_indent rc.indent_increment)

/-- Mirrors `TreeBasedCodeGeneration for RawCode`, `generate_code_post_traverse`:
undoes the recorded indent increment, then replays the recorded post-traversal
chunks shifted by the (already restored) ambient indent. -/
def RawCode.generate_code_post_traverse (rc : RawCode) (s : CodeGenerationState) :
    List CodeChunk × CodeGenerationState :=
  let s2 := s.increment_indent (-rc.indent_increment)
  (rc.code_chunk_post_traverse.map fun chunk => { chunk with indent := chunk.indent + s2.indent },
   s2)

/-- A tree of payloads with ordered children: the shape shared by the AST node
structs that implement `SubnodeAccess` in the source. -/
inductive GenTree (α : Type) where
  | mk (payload : α) (children : List (GenTree α))

def GenTree.payload {α : Type} : GenTree α → α
  | .mk p _ => p

def GenTree.children {α : Type} : GenTree α → List (GenTree α)
  | .mk _ cs => cs

mutual

/-- Mirrors the blanket `impl<T: SubnodeAccess<T> + TreeBasedCodeGeneration>
CodeGeneration for T`: pre-traversal chunks, then every child depth-first in
order, then post-traversal chunks, threading the single mutable state. -/
def generate_code {α : Type} (pre post : α → GenerationHook) :
    GenTree α → CodeGenerationState → List CodeChunk × CodeGenerationState
  | GenTree.mk payload children, s =>
    let pre_result := pre payload s
    let children_result := generate_code_children pre post children pre_result.2
    let post_result := post payload children_result.2
    (pre_result.1 ++ children_result.1 ++ post_result.1, post_result.2)

/-- The `for subnode in self.iter()` loop of the blanket impl. -/
def generate_code_children {α : Type} (pre post : α → GenerationHook) :
    List (GenTree α) → CodeGenerationState → List CodeChunk × CodeGenerationState
  | [], s => ([], s)
  | t :: ts, s =>
    let head_result := generate_code pre post t s
    let tail_result := generate_code_children pre post ts head_result.2
    (head_result.1 ++ tail_result.1, tail_result.2)

end

/-! ## C backend (`src/parser_generation/ragel/c.rs`) -/

namespace C

/-- Mirrors the `ParsingFunction` struct of `c.rs`. -/
structure ParsingFunction where
  message_name : String
deriving DecidableEq, Repr

/-- Mirrors the `MessageStruct` struct of `c.rs`. -/
structure MessageStruct where
  message_name : String
deriving DecidableEq, Repr

/-- Mirrors the `MessageStructMember` struct of `c.rs`. -/
structure MessageStructMember where
  name : String
  field_base_type : FieldBaseType
  /-- If 0, it is considered just a field -/
  array_length : Nat
deriving DecidableEq, Repr

/-- Mirrors the `ParserStateStruct` struct of `c.rs`. -/
structure ParserStateStruct where
  machine_name : String
deriving DecidableEq, Repr

/-- Mirrors the `ParserStateInitFunction` struct of `c.rs`. -/
structure ParserStateInitFunction where
  machine_name : String
deriving DecidableEq, Repr

/-- The trait-default `generate_code_post_traverse`: no chunks, no state
change (`LinkedList::new()`). -/
def default_post_traverse : GenerationHook := fun s => ([], s)

/-- Mirrors `TreeBasedCodeGeneration for MessageStruct`,
`generate_code_pre_traverse`: emits the struct header at the current indent
and increments the indent. -/
def MessageStruct.generate_code_pre_traverse (node : MessageStruct) :
    GenerationHook := fun s =>
  ([{ code := "struct " ++ node.message_name ++ "Message \x7b"
      indent := s.indent, newlines := 1 }],
   ⟨s.indent + 1⟩)

/-- Mirrors `TreeBasedCodeGeneration for MessageStruct`,
`generate_code_post_traverse`: decrements the indent, then closes the
bracket at the restored indent. -/
def MessageStruct.generate_code_post_traverse (_node : MessageStruct) :
    GenerationHook := fun s =>
  let s2 : CodeGenerationState := ⟨s.indent - 1⟩
  ([{ code := "\x7d;", indent := s2.indent, newlines := 1 }], s2)

/-- The `format!` expression of `MessageStructMember::generate_code_pre_traverse`
(and of the identical writer-based renderer): base type, name and an optional
array suffix. -/
def MessageStructMember.formatted (node : MessageStructMember) : String :=
  (match node.field_base_type with | .i8 => "uint8_t") ++ " " ++ node.name ++
    (if node.array_length = 0 then "" else "[" ++ toString node.array_length ++ "]") ++ ";"

/-- Mirrors `TreeBasedCodeGeneration for MessageStructMember`,
`generate_code_pre_traverse`: a single chunk at the current indent; the
indent is not touched. -/
def MessageStructMember.generate_code_pre_traverse (node : MessageStructMember) :
    GenerationHook := fun s =>
  ([{ code := node.formatted, indent := s.indent, newlines := 1 }], s)

/-- Mirrors `TreeBasedCodeGeneration for ParserStateStruct`,
`generate_code_pre_traverse`: four chunks (header, two members, closing
bracket); the indent is read but never written. -/
def ParserStateStruct.generate_code_pre_traverse (node : ParserStateStruct) :
    GenerationHook := fun s =>
  ([{ code := "struct " ++ node.machine_name ++ "ParserState \x7b"
      indent := s.indent, newlines := 1 },
    { code := "int machineInitRequired;", indent := s.indent + 1, newlines := 1 },
    { code := "int cs;", indent := s.indent + 1, newlines := 1 },
    { code := "\x7d;", indent := s.indent, newlines := 1 }],
   s)

/-- Mirrors `TreeBasedCodeGeneration for ParserStateInitFunction`,
`generate_code_pre_traverse`: signature and opening bracket at the current
indent, then an indent increment, then the two member initializers. -/
def ParserStateInitFunction.generate_code_pre_traverse (node : ParserStateInitFunction) :
    GenerationHook := fun s =>
  ([{ code := "void machine" ++ node.machine_name ++ "ParserStateInit(struct " ++
        node.machine_name ++ "ParserState *aParserState)"
      indent := s.indent, newlines := 1 },
    { code := "\x7b", indent := s.indent, newlines := 1 },
    { code := "aParserState->machineInitRequired = 0;", indent := s.indent + 1, newlines := 1 },
    { code := "aParserState->cs = 0;", indent := s.indent + 1, newlines := 1 }],
   ⟨s.indent + 1⟩)

/-- Mirrors `TreeBasedCodeGeneration for ParserStateInitFunction`,
`generate_code_post_traverse`: decrements the indent and closes the bracket. -/
def ParserStateInitFunction.generate_code_post_traverse (_node : ParserStateInitFunction) :
    GenerationHook := fun s =>
  let s2 : CodeGenerationState := ⟨s.indent - 1⟩
  ([{ code := "\x7d", indent := s2.indent, newlines := 1 }], s2)

/-- Mirrors `TreeBasedCodeGeneration for ParsingFunction`,
`generate_code_pre_traverse`: the whole function body is emitted in the pre
hook, with the indent incremented for the body and restored before the
closing bracket (net-zero inside the hook). -/
def ParsingFunction.generate_code_pre_traverse (node : ParsingFunction) :
    GenerationHook := fun s =>
  ([{ code := "void parse" ++ node.message_name ++ "(struct " ++ node.message_name ++
        "ParserState *aParserState, const char *aInputBuffer, int aInputBufferLength, struct " ++
        node.message_name ++ " *a" ++ node.message_name ++ ")"
      indent := s.indent, newlines := 1 },
    { code := "\x7b", indent := s.indent, newlines := 1 },
    { code := "const char *p = aInputBuffer;  // Iterator \"begin\" pointer -- Ragel-specific variable for C code generation"
      indent := s.indent + 1, newlines := 1 },
    { code := "const char *pe = aInputBuffer + aInputBufferLength;  // Iterator \"end\" pointer -- Ragel-specific variable for C code generation"
      indent := s.indent + 1, newlines := 1 },
    { code := "// Parse starting from the state defined in `aParserState`"
      indent := s.indent + 1, newlines := 1 },
    { code := "%% write exec;", indent := s.indent + 1, newlines := 1 },
    { code := "\x7d", indent := s.indent + 1 - 1, newlines := 1 }],
   ⟨s.indent + 1 - 1⟩)

/-- Mirrors the `AstNodeType` enum of `c.rs`.  The `Common` variant (which
wraps a whole common AST subtree and delegates its generation elsewhere) is
outside the scope of the modelled dispatch and is not included. -/
inductive AstNodeType where
  | root
  | parsingFunction (node : ParsingFunction)
  | parserStateStruct (node : ParserStateStruct)
  | parserStateInitFunction (node : ParserStateInitFunction)
  | messageStruct (node : MessageStruct)
  | messageStructMember (node : MessageStructMember)
deriving DecidableEq, Repr

/-- Mirrors `TreeBasedCodeGeneration for AstNodeType`,
`generate_code_pre_traverse`: dispatches to the payload's pre-traversal hook;
the fallback arm (reached by `Root`) logs
`"Unhandled node, skipping"` and returns an empty chunk list. -/
def AstNodeType.generate_code_pre_traverse : AstNodeType → GenerationHook
  | .parsingFunction node => node.generate_code_pre_traverse
  | .parserStateStruct node => node.generate_code_pre_traverse
  | .parserStateInitFunction node => node.generate_code_pre_traverse
  | .messageStruct node => node.generate_code_pre_traverse
  | .messageStructMember node => node.generate_code_pre_traverse
  | .root => fun s => ([], s)

/-- Mirrors `TreeBasedCodeGeneration for AstNodeType`,
`generate_code_post_traverse`.  Note: the source's arm for
`ParserStateInitFunction` invokes the payload's `generate_code_pre_traverse`
(not its post hook); this is reproduced here verbatim.  The fallback arm
(reached by `Root`) logs and returns an empty chunk list. -/
def AstNodeType.generate_code_post_traverse : AstNodeType → GenerationHook
  | .parsingFunction _node => default_post_traverse
  | .parserStateStruct _node => default_post_traverse
  | .parserStateInitFunction node => node.generate_code_pre_traverse
  | .messageStruct node => node.generate_code_post_traverse
  | .messageStructMember _node => default_post_traverse
  | .root => fun s => ([], s)

/-- The `AstNode` struct of `c.rs` (payload plus children), as a tree. -/
abbrev CAstNode := GenTree AstNodeType

/-- The `generate_code` of the blanket `CodeGeneration` impl, instantiated at
the `c.rs` `AstNode` tree. -/
def generate_ast_node (t : CAstNode) (s : CodeGenerationState) :
    List CodeChunk × CodeGenerationState :=
  generate_code AstNodeType.generate_code_pre_traverse
    AstNodeType.generate_code_post_traverse t s

/-- The children loop of the blanket impl, instantiated at the `c.rs`
`AstNode` tree. -/
def generate_ast_node_children (ts : List CAstNode) (s : CodeGenerationState) :
    List CodeChunk × CodeGenerationState :=
  generate_code_children AstNodeType.generate_code_pre_traverse
    AstNodeType.generate_code_post_traverse ts s

/-- The family of `c.rs` types implementing `TreeBasedCodeGeneration`
directly (the implementors the generic `From<&T> for RawCode` can cache). -/
inductive CNode where
  | parsingFunction (node : ParsingFunction)
  | parserStateStruct (node : ParserStateStruct)
  | parserStateInitFunction (node : ParserStateInitFunction)
  | messageStruct (node : MessageStruct)
  | messageStructMember (node : MessageStructMember)
deriving DecidableEq, Repr

/-- The pre-traversal hook of each `TreeBasedCodeGeneration` implementor. -/
def CNode.generate_code_pre_traverse : CNode → GenerationHook
  | .parsingFunction node => node.generate_code_pre_traverse
  | .parserStateStruct node => node.generate_code_pre_traverse
  | .parserStateInitFunction node => node.generate_code_pre_traverse
  | .messageStruct node => node.generate_code_pre_traverse
  | .messageStructMember node => node.generate_code_pre_traverse

/-- The post-traversal hook of each `TreeBasedCodeGeneration` implementor
(the trait default where the implementor does not override it). -/
def CNode.generate_code_post_traverse : CNode → GenerationHook
  | .parsingFunction _node => default_post_traverse
  | .parserStateStruct _node => default_post_traverse
  | .parserStateInitFunction node => node.generate_code_post_traverse
  | .messageStruct node => node.generate_code_post_traverse
  | .messageStructMember _node => default_post_traverse

/-- Mirrors `RawCode::from(&T)` for a `c.rs` implementor: caches its own hooks. -/
def RawCode.of_node (n : CNode) : RawCode :=
  RawCode.from_hooks n.generate_code_pre_traverse n.generate_code_post_traverse

/-- Payload of a tree in which a node is either a live backend node or a
spliced-in pre-rendered `RawCode` block (the two shapes `preprocess_common`
leaves in the tree). -/
abbrev ReplacedNode := CNode ⊕ RawCode

/-- Pre-traversal dispatch over live nodes and raw-code splices. -/
def replaced_pre_traverse : ReplacedNode → GenerationHook
  | .inl n => n.generate_code_pre_traverse
  | .inr rc => rc.generate_code_pre_traverse

/-- Post-traversal dispatch over live nodes and raw-code splices. -/
def replaced_post_traverse : ReplacedNode → GenerationHook
  | .inl n => n.generate_code_post_traverse
  | .inr rc => rc.generate_code_post_traverse

end C

/-! ## Helper lemmas -/

/-- A `Vec::push` loop collecting one element per input is an append of a map. -/
theorem foldl_push_eq_append_map {α β : Type} (f : β → α) (l : List β) (init : List α) :
    l.foldl (fun acc x => acc ++ [f x]) init = init ++ l.map f := by
  induction l generalizing init with
  | nil => simp
  | cons a t ih => simp [List.foldl_cons, ih]

/-- The function `increment_indent` always stores the clamped signed sum. -/
theorem increment_indent_eq (s : CodeGenerationState) (k : Int) :
    s.increment_indent k = ⟨((s.indent : Int) + k).toNat⟩ := by
  unfold CodeGenerationState.increment_indent
  split
  · simp only [CodeGenerationState.mk.injEq]
    omega
  · rfl

/-- The value of a `MaxLength` attribute (the only attribute variant). -/
def max_length_value : FieldAttribute → Nat
  | .maxLength ml => ml.value

/-- Specification side: the value of the last `MaxLength` occurrence in a
field's attribute list, if any. -/
def last_max_length_value (field : Field) : Option Nat :=
  (field.attributes.filterMap fun a =>
    match a with | .maxLength ml => some ml.value).getLast?

/-- An overwriting fold keeps the last element (or the initial value). -/
theorem foldl_overwrite {α : Type} (g : α → Nat) (l : List α) (init : Nat) :
    l.foldl (fun _v a => g a) init = ((l.map g).getLast?).getD init := by
  induction l generalizing init with
  | nil => rfl
  | cons a t ih =>
    rw [List.foldl_cons, ih (g a)]
    cases t with
    | nil => rfl
    | cons b t2 =>
      simp only [List.map_cons, List.getLast?_cons_cons]
      cases hgl : (g b :: List.map g t2).getLast? with
      | none => exact absurd (List.getLast?_eq_none_iff.mp hgl) (by simp)
      | some x => rfl

theorem filterMap_max_length (l : List FieldAttribute) :
    (l.filterMap fun a => match a with | .maxLength ml => some ml.value) =
      l.map max_length_value := by
  induction l with
  | nil => rfl
  | cons a t ih => cases a with | maxLength ml => simp [List.filterMap_cons, ih, max_length_value]

/-- The builder's attribute scan keeps the last `MaxLength` value (0 when the
attribute list is empty). -/
theorem scanned_max_length_eq (f : Field) :
    scanned_max_length f = (last_max_length_value f).getD 0 := by
  obtain ⟨fname, ftype, fattrs⟩ := f
  cases ftype with
  | regex rt =>
    show (fattrs.foldl (fun _v a => max_length_value a) 0) = _
    rw [foldl_overwrite]
    unfold last_max_length_value
    rw [filterMap_max_length]

/-- Specification side: the resolved `MaxLength` bound of a field, as the
builder applies it — the last explicit occurrence, with the §4.1 default of 64
substituted when the attribute is absent or its value is 0. -/
def spec_resolved_max_length (f : Field) : Nat :=
  match last_max_length_value f with
  | some v => if v = 0 then MaxLengthFieldAttribute.get_default_value else v
  | none => MaxLengthFieldAttribute.get_default_value

theorem resolved_array_length_eq_spec (f : Field) :
    resolved_array_length f = spec_resolved_max_length f := by
  unfold resolved_array_length resolved_array_length_and_warning spec_resolved_max_length
  rw [scanned_max_length_eq]
  cases h : last_max_length_value f with
  | none => rfl
  | some v =>
    by_cases hv : v = 0 <;> simp [hv]

/-- One composite lint call appends every pending linter's result, in order. -/
theorem lint_field_results (m : Message) (f : Field) (r : ProtocolLintResult) :
    (CompositeMessageLinter.lint_field m f r).message_lint_results =
      r.message_lint_results ++
        CompositeMessageLinter.pending_linters.map fun linter => linter m f := by
  simp [CompositeMessageLinter.lint_field, CompositeMessageLinter.pending_linters]

theorem lint_fields_fold (m : Message) (fs : List Field) (r : ProtocolLintResult) :
    (fs.foldl (fun acc field => CompositeMessageLinter.lint_field m field acc)
        r).message_lint_results =
      r.message_lint_results ++
        fs.flatMap fun f =>
          CompositeMessageLinter.pending_linters.map fun linter => linter m f := by
  induction fs generalizing r with
  | nil => simp
  | cons f t ih =>
    rw [List.foldl_cons, ih]
    simp [lint_field_results, List.flatMap_cons]

theorem lint_message_results (m : Message) (r : ProtocolLintResult) :
    (CompositeMessageLinter.lint_message m r).message_lint_results =
      r.message_lint_results ++
        m.fields.flatMap fun f =>
          CompositeMessageLinter.pending_linters.map fun linter => linter m f :=
  lint_fields_fold m m.fields r

/-- The report built by `validate_protocol`, in closed form: per message, per
field, one entry per pending linter, in traversal order. -/
theorem validate_protocol_results (p : Protocol) :
    (validate_protocol p).message_lint_results =
      p.messages.flatMap fun m =>
        m.fields.flatMap fun f =>
          CompositeMessageLinter.pending_linters.map fun linter => linter m f := by
  unfold validate_protocol
  have aux : ∀ (ms : List Message) (r : ProtocolLintResult),
      (ms.foldl (fun acc message => CompositeMessageLinter.lint_message message acc)
          r).message_lint_results =
        r.message_lint_results ++
          ms.flatMap fun m =>
            m.fields.flatMap fun f =>
              CompositeMessageLinter.pending_linters.map fun linter => linter m f := by
    intro ms
    induction ms with
    | nil => intro r; simp
    | cons m t ih =>
      intro r
      rw [List.foldl_cons, ih]
      simp [lint_message_results, List.flatMap_cons]
  rw [aux]
  rfl

/-- A `flatMap` whose blocks all have the same length. -/
theorem flatMap_const_length {α β : Type} (g : α → List β) (k : Nat)
    (hk : ∀ x, (g x).length = k) (l : List α) :
    (l.flatMap g).length = k * l.length := by
  induction l with
  | nil => simp
  | cons a t ih =>
    rw [List.flatMap_cons, List.length_append, ih, hk, List.length_cons, Nat.mul_succ]
    omega

/-- The per-message subtrees in closed form (the push loops as maps). -/
theorem message_subtrees_eq (m : Message) :
    AstNode.message_subtrees m =
      [AstNode.mk (.machineHeader { machine_name := m.name }) [],
       AstNode.mk (.messageStruct { message_name := m.name })
         (m.fields.map fun f =>
           AstNode.mk (.messageStructMember (AstNode.message_struct_member_of f)) []),
       AstNode.mk
         (.machineDefinition
           { machine_name := m.name, fields := m.fields.map fun f => f.name })
         ((m.fields.map fun f =>
             AstNode.mk (.machineActionHook (AstNode.machine_action_hook_of f)) []) ++
          (m.fields.map fun f =>
             AstNode.mk (.regexMachineField (AstNode.regex_machine_field_of f)) [])),
       AstNode.mk (.parsingFunction { message_name := m.name }) []] := by
  unfold AstNode.message_subtrees
  rw [foldl_push_eq_append_map, foldl_push_eq_append_map, foldl_push_eq_append_map]
  simp

/-- The children accumulated by folding `add_message_parser` over messages. -/
theorem from_protocol_fold_children (ms : List Message) (node : AstNode) :
    (ms.foldl AstNode.add_message_parser node).children =
      node.children ++ ms.flatMap AstNode.message_subtrees := by
  induction ms generalizing node with
  | nil => simp
  | cons m t ih =>
    rw [List.foldl_cons, ih]
    simp [AstNode.add_message_parser, AstNode.children, List.flatMap_cons]

/-! ## Claim theorems: IR model and AST builder -/

/-- Specification side: the first message of the list carrying the `Root`
attribute, in declaration order. -/
def first_root_tagged : List Message → Option Message
  | [] => none
  | m :: ms => if m.has_root_attribute then some m else first_root_tagged ms

theorem find?_eq_first_root_tagged (l : List Message) :
    l.find? Message.has_root_attribute = first_root_tagged l := by
  induction l with
  | nil => rfl
  | cons m ms ih =>
    rw [List.find?_cons, first_root_tagged]
    by_cases h : m.has_root_attribute <;> simp [h, ih]

/-- C3: for a protocol with at least one message, `Protocol::root_message`
returns the first message (in declaration order) carrying the `Root`
attribute if any message carries it, and the first declared message
otherwise; for a protocol with zero messages it fails fatally (modelled as
`none`). -/
theorem c3_root_message (p : Protocol) :
    (p.messages = [] → p.root_message = none) ∧
    ∀ h : p.messages ≠ [],
      p.root_message =
        some ((first_root_tagged p.messages).getD (p.messages.head h)) := by
  constructor
  · intro h
    simp [Protocol.root_message, h]
  · intro h
    unfold Protocol.root_message
    rw [if_neg (by simpa using h), find?_eq_first_root_tagged]
    cases hf : first_root_tagged p.messages with
    | some m => rfl
    | none =>
      show p.messages[0]? = some (Option.getD none (p.messages.head h))
      rw [← List.head?_eq_getElem?, List.head?_eq_head h, Option.getD]

/-- A protocol whose second message carries the `Root` attribute. -/
def root_test_protocol : Protocol :=
  { messages :=
      [{ name := "First", fields := [], attributes := [] },
       { name := "Second", fields := [], attributes := [.root] }]
    attributes := [] }

theorem c3_root_message_witness :
    root_test_protocol.messages ≠ [] ∧
    root_test_protocol.root_message =
      some ((first_root_tagged root_test_protocol.messages).getD
        (root_test_protocol.messages.head (by decide))) :=
  ⟨by decide, (c3_root_message root_test_protocol).2 (by decide)⟩

/-- A field carrying an explicit `MaxLength` attribute of value 0. -/
def zero_max_length_protocol : Protocol :=
  { messages :=
      [{ name := "M"
         fields := [{ name := "payload", field_type := .regex { regex := "\\xfe" }
                      attributes := [.maxLength { value := 0 }] }]
         attributes := [] }]
    attributes := [] }

/-- C4, counterexample: the claim predicts that a member's array length equals
the field's `MaxLength` attribute value whenever the attribute is present, so
for the explicit value 0 it predicts 0; the builder instead substitutes the
default 64. -/
theorem c4_counterexample :
    (AstNode.from_protocol zero_max_length_protocol).children[1]? =
      some (AstNode.mk (.messageStruct { message_name := "M" })
        [AstNode.mk (.messageStructMember
          { name := "payload", field_base_type := .i8, array_length := 64 }) []]) ∧
    (64 : Nat) ≠ 0 :=
  ⟨rfl, by decide⟩

/-- C4, amended: for every message, the builder produces a `MessageStruct`
node with exactly one `MessageStructMember` child per field, in
field-declaration order; each member's array length equals the value of the
field's last `MaxLength` attribute when one is present with a nonzero value,
and equals the default 64 when the attribute is absent or its last occurrence
has value 0. -/
theorem c4_message_struct_members (m : Message) :
    (AstNode.message_subtrees m)[1]? =
      some (AstNode.mk (.messageStruct { message_name := m.name })
        (m.fields.map fun f =>
          AstNode.mk (.messageStructMember
            { name := f.name, field_base_type := .i8
              array_length := spec_resolved_max_length f }) [])) := by
  rw [message_subtrees_eq]
  simp only [List.getElem?_cons_succ, List.getElem?_cons_zero, Option.some.injEq]
  have hmember : ∀ f : Field,
      AstNode.message_struct_member_of f =
        { name := f.name, field_base_type := .i8
          array_length := spec_resolved_max_length f } := by
    intro f
    obtain ⟨fname, ftype, fattrs⟩ := f
    cases ftype with
    | regex rt =>
      unfold AstNode.message_struct_member_of
      rw [resolved_array_length_eq_spec]
  simp [hmember]

/-- C6: per message the builder emits, in this fixed order, a `MachineHeader`
named after the message, a `MessageStruct` with one member per field, a
`MachineDefinition` (carrying the field-name list) whose children are one
`MachineActionHook` per field followed by one `RegexMachineField` per field
(so each field's hook precedes its matcher, and both carry the field's name,
the matcher also the pattern text), and a `ParsingFunction` named after the
message; messages are lowered in protocol declaration order. -/
theorem c6_message_subtree_order (p : Protocol) :
    (AstNode.from_protocol p).children =
      p.messages.flatMap fun m =>
        [AstNode.mk (.machineHeader { machine_name := m.name }) [],
         AstNode.mk (.messageStruct { message_name := m.name })
           (m.fields.map fun f =>
             AstNode.mk (.messageStructMember (AstNode.message_struct_member_of f)) []),
         AstNode.mk
           (.machineDefinition
             { machine_name := m.name, fields := m.fields.map fun f => f.name })
           ((m.fields.map fun f =>
               AstNode.mk (.machineActionHook { name := f.name }) []) ++
            (m.fields.map fun f =>
               AstNode.mk (.regexMachineField
                 { string_sequence := match f.field_type with | .regex r => r.regex
                   name := f.name }) [])),
         AstNode.mk (.parsingFunction { message_name := m.name }) []] := by
  unfold AstNode.from_protocol
  rw [from_protocol_fold_children]
  simp only [AstNode.children, List.nil_append]
  have hsub : ∀ m : Message,
      AstNode.message_subtrees m =
        [AstNode.mk (.machineHeader { machine_name := m.name }) [],
         AstNode.mk (.messageStruct { message_name := m.name })
           (m.fields.map fun f =>
             AstNode.mk (.messageStructMember (AstNode.message_struct_member_of f)) []),
         AstNode.mk
           (.machineDefinition
             { machine_name := m.name, fields := m.fields.map fun f => f.name })
           ((m.fields.map fun f =>
               AstNode.mk (.machineActionHook { name := f.name }) []) ++
            (m.fields.map fun f =>
               AstNode.mk (.regexMachineField
                 { string_sequence := match f.field_type with | .regex r => r.regex
                   name := f.name }) [])),
         AstNode.mk (.parsingFunction { message_name := m.name }) []] := by
    intro m
    rw [message_subtrees_eq]
    have hhook : ∀ f : Field,
        AstNode.machine_action_hook_of f = { name := f.name } := fun _ => rfl
    have hregex : ∀ f : Field,
        AstNode.regex_machine_field_of f =
          { string_sequence := match f.field_type with | .regex r => r.regex
            name := f.name } := by
      intro f
      obtain ⟨fname, ftype, fattrs⟩ := f
      cases ftype with
      | regex rt => rfl
    simp [hhook, hregex]
  rw [funext hsub]

/-! ## Claim theorems: validation engine -/

/-- C8: `validate_protocol` invokes every pending linter exactly once per
field, for every field of every message, visiting fields in declaration order
and messages in protocol declaration order, and appends every result
(including `Ok`) to the report, whose length is therefore the number of
linters times the total number of fields. -/
theorem c8_validate_protocol_report (p : Protocol) :
    (validate_protocol p).message_lint_results =
      (p.messages.flatMap fun m =>
        m.fields.flatMap fun f =>
          CompositeMessageLinter.pending_linters.map fun linter => linter m f) ∧
    (validate_protocol p).message_lint_results.length =
      CompositeMessageLinter.pending_linters.length *
        (p.messages.map fun m => m.fields.length).sum := by
  refine ⟨validate_protocol_results p, ?_⟩
  rw [validate_protocol_results]
  induction p.messages with
  | nil => simp
  | cons m t ih =>
    rw [List.flatMap_cons, List.length_append, ih,
      flatMap_const_length _ CompositeMessageLinter.pending_linters.length
        (fun f => List.length_map _ _) m.fields]
    simp [Nat.mul_add]

/-- The warning texts the max-length linter contributes for a protocol, in
traversal order: one per field lacking a `MaxLength` attribute. -/
def offending_warning_texts (p : Protocol) : List String :=
  p.messages.flatMap fun m =>
    m.fields.filterMap fun f =>
      if f.has_max_length_attribute then none
      else some (max_length_warning_text m.name f.name)

/-- Per (message, field), the two pending linters contribute a warning with a
given text exactly when the field lacks `MaxLength` and the text matches. -/
theorem count_warning_block (m : Message) (f : Field) (t : String) :
    (CompositeMessageLinter.pending_linters.map fun linter => linter m f).count
        (.warning t) =
      ((if f.has_max_length_attribute then []
        else [max_length_warning_text m.name f.name]) : List String).count t := by
  obtain ⟨fname, ftype, fattrs⟩ := f
  cases ftype with
  | regex rt =>
    show ([MessageFieldLintResult.ok,
        RegexFieldMaxLengthLinter.lint_field m ⟨fname, .regex rt, fattrs⟩] : _).count _ = _
    unfold RegexFieldMaxLengthLinter.lint_field
    by_cases h : Field.has_max_length_attribute ⟨fname, .regex rt, fattrs⟩
    · simp [h, List.count_cons]
    · simp only [h, if_neg, Bool.false_eq_true, ite_false]
      by_cases ht : max_length_warning_text m.name fname = t
      · simp [ht, List.count_cons]
      · simp [List.count_cons, ht]

/-- Warnings with a given text in the report, counted against the offending
fields. -/
theorem count_warning_validate (p : Protocol) (t : String) :
    (validate_protocol p).message_lint_results.count (.warning t) =
      (offending_warning_texts p).count t := by
  rw [validate_protocol_results]
  unfold offending_warning_texts
  induction p.messages with
  | nil => rfl
  | cons m ms ih =>
    rw [List.flatMap_cons, List.flatMap_cons, List.count_append, List.count_append, ih]
    have hfields : ∀ fs : List Field,
        (fs.flatMap fun f =>
            CompositeMessageLinter.pending_linters.map fun linter => linter m f).count
            (.warning t) =
          (fs.filterMap fun f =>
            if f.has_max_length_attribute then none
            else some (max_length_warning_text m.name f.name)).count t := by
      intro fs
      induction fs with
      | nil => rfl
      | cons f ft ihf =>
        rw [List.flatMap_cons, List.count_append, ihf, List.filterMap_cons,
          count_warning_block]
        by_cases h : f.has_max_length_attribute <;>
          simp [h, List.count_cons, Nat.add_comm]
    rw [hfields]

/-- C5: if exactly one offending (message, field) pair yields a given warning
text — the situation of a single `Regex`-typed field lacking `MaxLength` —
then the `validate_protocol` report contains exactly one `Warning` with that
text; and the `RegexFieldMaxLengthLinter` returns `Ok` for every field that
does carry a `MaxLength` attribute. -/
theorem c5_missing_max_length_warning (p : Protocol) (t : String)
    (h : (offending_warning_texts p).count t = 1) :
    (validate_protocol p).message_lint_results.count (.warning t) = 1 ∧
    ∀ (m : Message) (f : Field), f.has_max_length_attribute = true →
      RegexFieldMaxLengthLinter.lint_field m f = .ok := by
  refine ⟨(count_warning_validate p t).trans h, ?_⟩
  intro m f hf
  obtain ⟨fname, ftype, fattrs⟩ := f
  cases ftype with
  | regex rt => simp [RegexFieldMaxLengthLinter.lint_field, hf]

/-- The end-to-end scenario protocol: one message `TestMessage` with one
pattern-matching field `preamble` and no `MaxLength` attribute. -/
def test_protocol : Protocol :=
  { messages :=
      [{ name := "TestMessage"
         fields := [{ name := "preamble", field_type := .regex { regex := "\\xfe" }
                      attributes := [] }]
         attributes := [] }]
    attributes := [] }

theorem c5_missing_max_length_warning_witness :
    (offending_warning_texts test_protocol).count
        (max_length_warning_text "TestMessage" "preamble") = 1 ∧
    (validate_protocol test_protocol).message_lint_results.count
        (.warning (max_length_warning_text "TestMessage" "preamble")) = 1 :=
  ⟨by decide,
   (c5_missing_max_length_warning test_protocol
      (max_length_warning_text "TestMessage" "preamble") (by decide)).1⟩

/-! ## Claim theorems: MaxLength resolution edge cases -/

/-- C9: when a field carries two or more attributes (all attribute variants
are `MaxLength`), the builder's resolved array length is derived from the
final occurrence — the last value, with the 0-maps-to-default rule — and is
unchanged when the first occurrence is replaced by anything else. -/
theorem c9_last_max_length_wins (f : Field) (v : Nat)
    (hlen : 2 ≤ f.attributes.length)
    (hv : last_max_length_value f = some v) :
    (AstNode.message_struct_member_of f).array_length =
      (if v = 0 then MaxLengthFieldAttribute.get_default_value else v) ∧
    ∀ a : FieldAttribute,
      (AstNode.message_struct_member_of
          { f with attributes := f.attributes.set 0 a }).array_length =
        (AstNode.message_struct_member_of f).array_length := by
  have hres : ∀ g : Field, (AstNode.message_struct_member_of g).array_length =
      spec_resolved_max_length g := by
    intro g
    show resolved_array_length g = _
    exact resolved_array_length_eq_spec g
  constructor
  · rw [hres, spec_resolved_max_length, hv]
  · intro a
    rw [hres, hres]
    unfold spec_resolved_max_length
    have hlast : last_max_length_value { f with attributes := f.attributes.set 0 a } =
        last_max_length_value f := by
      unfold last_max_length_value
      show ((f.attributes.set 0 a).filterMap _).getLast? = _
      rw [filterMap_max_length, filterMap_max_length]
      match f.attributes, hlen with
      | x :: y :: rest, _ =>
        show (max_length_value a :: List.map _ (y :: rest)).getLast? = _
        simp [List.getLast?_cons_cons]
    rw [hlast]

/-- A field with two `MaxLength` attributes, values 5 then 7. -/
def repeated_max_length_field : Field :=
  { name := "payload", field_type := .regex { regex := "\\xfe" }
    attributes := [.maxLength { value := 5 }, .maxLength { value := 7 }] }

theorem c9_last_max_length_wins_witness :
    2 ≤ repeated_max_length_field.attributes.length ∧
    last_max_length_value repeated_max_length_field = some 7 ∧
    (AstNode.message_struct_member_of repeated_max_length_field).array_length = 7 :=
  ⟨by decide, by decide,
   ((c9_last_max_length_wins repeated_max_length_field 7 (by decide) (by decide)).1).trans
     (by decide)⟩

/-- C10: an explicit `MaxLength` bound whose last occurrence is 0 is treated
exactly as an absent bound: the member's array length is the default 64, the
non-fatal missing-`MaxLength` diagnostic is emitted, and the generated member
is identical to the one generated with no attributes at all. -/
theorem c10_zero_max_length_as_absent (f : Field)
    (h : last_max_length_value f = some 0) :
    resolved_array_length f = MaxLengthFieldAttribute.get_default_value ∧
    max_length_warning_emitted f = true ∧
    AstNode.message_struct_member_of f =
      AstNode.message_struct_member_of { f with attributes := [] } := by
  have hscan : scanned_max_length f = 0 := by
    rw [scanned_max_length_eq, h]
    rfl
  have hscan2 : scanned_max_length { f with attributes := [] } = 0 := by
    rw [scanned_max_length_eq]
    rfl
  refine ⟨?_, ?_, ?_⟩
  · unfold resolved_array_length resolved_array_length_and_warning
    rw [hscan]
    rfl
  · unfold max_length_warning_emitted resolved_array_length_and_warning
    rw [hscan]
    rfl
  · unfold AstNode.message_struct_member_of resolved_array_length
      resolved_array_length_and_warning
    rw [hscan, hscan2]

/-- A field with a single `MaxLength` attribute of value 0. -/
def zero_max_length_field : Field :=
  { name := "payload", field_type := .regex { regex := "\\xfe" }
    attributes := [.maxLength { value := 0 }] }

theorem c10_zero_max_length_as_absent_witness :
    last_max_length_value zero_max_length_field = some 0 ∧
    resolved_array_length zero_max_length_field = 64 ∧
    max_length_warning_emitted zero_max_length_field = true :=
  ⟨by decide,
   ((c10_zero_max_length_as_absent zero_max_length_field (by decide)).1).trans rfl,
   (c10_zero_max_length_as_absent zero_max_length_field (by decide)).2.1⟩

/-! ## Claim theorems: code generation engine -/

/-- C1: the net-zero indent round trip fails on the code as written.  For the
backend node kind `ParserStateInitFunction` the post-traversal dispatch of
`TreeBasedCodeGeneration for AstNodeType` invokes the payload's
`generate_code_pre_traverse` hook (instead of its post hook, which would
decrement the indent), so full generation of that node starting at indent 0
leaves the shared indent counter at 2 — the header chunks are also emitted a
second time. -/
theorem c1_parser_state_init_indent_bug :
    (C.generate_ast_node
        (GenTree.mk (.parserStateInitFunction { machine_name := "TestMessage" }) [])
        ⟨0⟩).2.indent = 2 := by
  simp [C.generate_ast_node, generate_code, generate_code_children,
    C.AstNodeType.generate_code_pre_traverse, C.AstNodeType.generate_code_post_traverse,
    C.ParserStateInitFunction.generate_code_pre_traverse]

/-- C2, counterexample: a node kind with no explicit dispatch arm (`Root`
reaching the hooks of `TreeBasedCodeGeneration for AstNodeType`) does not
terminate generation: both hooks return normally with an empty chunk list,
and full generation of such a node returns an (empty) chunk sequence. -/
theorem c2_counterexample :
    C.AstNodeType.root.generate_code_pre_traverse ⟨0⟩ = ([], ⟨0⟩) ∧
    C.AstNodeType.root.generate_code_post_traverse ⟨0⟩ = ([], ⟨0⟩) ∧
    C.generate_ast_node (GenTree.mk .root []) ⟨0⟩ = ([], ⟨0⟩) := by
  refine ⟨rfl, rfl, ?_⟩
  simp [C.generate_ast_node, generate_code, generate_code_children,
    C.AstNodeType.generate_code_pre_traverse, C.AstNodeType.generate_code_post_traverse]

/-- C2, amended: in the chunk-based dispatch (`TreeBasedCodeGeneration for
AstNodeType`), a node kind with no explicit match arm (`Root`) is not fatal:
the fallback arm logs a warning and skips it, contributing no chunks and no
state change of its own, while the node's children are still traversed
normally. -/
theorem c2_unmatched_kind_skipped (children : List C.CAstNode)
    (s : CodeGenerationState) :
    C.generate_ast_node (GenTree.mk .root children) s =
      C.generate_ast_node_children children s := by
  simp [C.generate_ast_node, C.generate_ast_node_children, generate_code,
    C.AstNodeType.generate_code_pre_traverse, C.AstNodeType.generate_code_post_traverse]

theorem raw_pre_eq (n : C.CNode) (s : CodeGenerationState) :
    (C.RawCode.of_node n).generate_code_pre_traverse s =
      n.generate_code_pre_traverse s := by
  cases n <;>
    simp [C.RawCode.of_node, RawCode.from_hooks, RawCode.generate_code_pre_traverse,
      C.CNode.generate_code_pre_traverse, C.CNode.generate_code_post_traverse,
      C.default_post_traverse,
      C.ParsingFunction.generate_code_pre_traverse,
      C.ParserStateStruct.generate_code_pre_traverse,
      C.ParserStateInitFunction.generate_code_pre_traverse,
      C.ParserStateInitFunction.generate_code_post_traverse,
      C.MessageStruct.generate_code_pre_traverse,
      C.MessageStruct.generate_code_post_traverse,
      C.MessageStructMember.generate_code_pre_traverse,
      increment_indent_eq] <;> omega

theorem raw_post_eq (n : C.CNode) (s : CodeGenerationState) :
    (C.RawCode.of_node n).generate_code_post_traverse s =
      n.generate_code_post_traverse s := by
  cases n <;>
    simp [C.RawCode.of_node, RawCode.from_hooks, RawCode.generate_code_post_traverse,
      C.CNode.generate_code_pre_traverse, C.CNode.generate_code_post_traverse,
      C.default_post_traverse,
      C.ParsingFunction.generate_code_pre_traverse,
      C.ParserStateStruct.generate_code_pre_traverse,
      C.ParserStateInitFunction.generate_code_pre_traverse,
      C.ParserStateInitFunction.generate_code_post_traverse,
      C.MessageStruct.generate_code_pre_traverse,
      C.MessageStruct.generate_code_post_traverse,
      C.MessageStructMember.generate_code_pre_traverse,
      increment_indent_eq] <;> omega

/-- C7: for every `c.rs` implementor of the tree-based generation hooks and
every ambient indent, the hooks of the `RawCode` cached from the node (built
at indent 0, recording the pre/post chunk lists and the net indent delta)
agree exactly with the node's own hooks — same chunk texts, same absolute
indents, same newline counts, same state effect — and hence full generation
of a tree with the cached node at its root is identical to generation with
the live node. -/
theorem c7_raw_code_replay (n : C.CNode) (s : CodeGenerationState) :
    (C.RawCode.of_node n).generate_code_pre_traverse s =
      n.generate_code_pre_traverse s ∧
    (C.RawCode.of_node n).generate_code_post_traverse s =
      n.generate_code_post_traverse s ∧
    ∀ children : List (GenTree C.ReplacedNode),
      generate_code C.replaced_pre_traverse C.replaced_post_traverse
          (GenTree.mk (.inl n) children) s =
        generate_code C.replaced_pre_traverse C.replaced_post_traverse
          (GenTree.mk (.inr (C.RawCode.of_node n)) children) s := by
  refine ⟨raw_pre_eq n s, raw_post_eq n s, ?_⟩
  intro children
  simp only [generate_code, C.replaced_pre_traverse, C.replaced_post_traverse]
  rw [raw_pre_eq, raw_post_eq]

end Robusto
